import Mathlib

/-!
Verification of the mutantstopbot core against its specification.

The development shallowly embeds the two core modules:

* `src/core/calc.py` — the per-bar signal/position arithmetic
  (`exit_total`, `take_profit`, `stop_loss`, `forward_fill`, `entry_price`);
* `src/bot/solve.py` — the statistics reducer (`_stats`), the grid-search
  optimizer (`_find_max`) and the segmented evaluator (`segmented_solve`).

Modelling conventions:

* bar arrays are total functions `ℕ → ℚ` (prices, indicator values) or
  `ℕ → ℤ` (signals, triggers); the bar index is the argument;
* IEEE floating-point values that may be NaN are modelled as `Option ℚ`
  with `none` playing the role of NaN; `nanSub` and `nanMulMask` reproduce
  the IEEE facts used by the code: any arithmetic with NaN yields NaN
  (in particular NaN times 0 is NaN), while finite values multiply with a
  0/1 mask as expected;
* the kernel (`core/kernel.py`) and the dataclasses of `bot/common.py` are
  not part of the sources; where a claim needs them they are abstracted as
  parameters or modelled from the spec, and the doc comment says so.
-/

namespace MutantStopBot

/-- Subtraction on possibly-NaN values: NaN propagates through `-`,
exactly as in IEEE arithmetic used by numpy. -/
def nanSub (a b : Option ℚ) : Option ℚ :=
  match a, b with
  | some x, some y => some (x - y)
  | _, _ => none

/-- Multiplication of a possibly-NaN value by a 0/1 boolean mask, as in
`array * bit_mask` in numpy: NaN times anything (including 0) is NaN,
a finite value times the mask is itself when the mask is set and 0
otherwise. -/
def nanMulMask (a : Option ℚ) (b : Bool) : Option ℚ :=
  match a with
  | none => none
  | some x => some (if b then x else 0)

/-- Embedding of `forward_fill` from `src/core/calc.py`.  The source scans
left to right carrying `last_valid` (initially NaN) and stores, at each
index, the entry itself when it is not NaN and the carried `last_valid`
otherwise; hence the value at index `t+1` is `arr (t+1)` when defined and
the value at index `t` otherwise, and the value at index `0` is `arr 0`. -/
def forward_fill (arr : ℕ → Option ℚ) : ℕ → Option ℚ
  | 0 => arr 0
  | t + 1 =>
    match arr (t + 1) with
    | some v => some v
    | none => forward_fill arr t

/-- Embedding of `entry_price` from `src/core/calc.py`:
`internal_bit_mask = logical_or(signal, trigger)`,
`entry_price = where(trigger == 1, entry, nan)` forward filled and
multiplied by the mask, and
`position_value = (exit - entry_price) * internal_bit_mask`.
The returned array is the position value. -/
def entry_price (entry exit : ℕ → ℚ) (signal trigger : ℕ → ℤ) : ℕ → Option ℚ :=
  fun t =>
    let internal_bit_mask : Bool := decide (signal t ≠ 0 ∨ trigger t ≠ 0)
    let ep : Option ℚ :=
      forward_fill (fun i => if trigger i = 1 then some (entry i) else none) t
    let ep_masked : Option ℚ := nanMulMask ep internal_bit_mask
    nanMulMask (nanSub (some (exit t)) ep_masked) internal_bit_mask

/-- Embedding of `take_profit` from `src/core/calc.py`:
`signal = where((position_value > take_profit_value * atr) & (trigger != 1), 0, signal)`,
then the trigger is rebuilt as `diff(signal)` with a 0 prepended. -/
def take_profit (position_value atr : ℕ → ℚ) (signal : ℕ → ℤ)
    (take_profit_value : ℚ) (trigger : ℕ → ℤ) : (ℕ → ℤ) × (ℕ → ℤ) :=
  let signal2 : ℕ → ℤ := fun t =>
    if position_value t > take_profit_value * atr t ∧ trigger t ≠ 1 then 0
    else signal t
  let trigger2 : ℕ → ℤ := fun t =>
    match t with
    | 0 => 0
    | n + 1 => signal2 (n + 1) - signal2 n
  (signal2, trigger2)

/-- Embedding of `stop_loss` from `src/core/calc.py`:
`signal = where(position_value < -stop_loss_value * atr, 0, signal)`,
then the trigger is rebuilt as `diff(signal)` with a 0 prepended. -/
def stop_loss (position_value atr : ℕ → ℚ) (signal : ℕ → ℤ)
    (stop_loss_value : ℚ) (trigger : ℕ → ℤ) : (ℕ → ℤ) × (ℕ → ℤ) :=
  let signal2 : ℕ → ℤ := fun t =>
    if position_value t < -stop_loss_value * atr t then 0 else signal t
  let trigger2 : ℕ → ℤ := fun t =>
    match t with
    | 0 => 0
    | n + 1 => signal2 (n + 1) - signal2 n
  (signal2, trigger2)

/-- Running cumulative sum of a bar array, as `numpy.cumsum` produces it:
the value at index `t` is the sum of the entries at indices `0..t`. -/
def cumsum (f : ℕ → ℚ) : ℕ → ℚ
  | 0 => f 0
  | t + 1 => cumsum f t + f (t + 1)

/-- Embedding of `exit_total` from `src/core/calc.py`:
`exit_value = where(trigger == -1, position_value, 0)`,
`exit_total = cumsum(exit_value)`,
`running_total = exit_total + position_value * signal`.
Returns the triple (exit value, exit total, running total). -/
def exit_total (position_value : ℕ → ℚ) (trigger signal : ℕ → ℤ) :
    (ℕ → ℚ) × (ℕ → ℚ) × (ℕ → ℚ) :=
  let exit_value : ℕ → ℚ := fun t =>
    if trigger t = -1 then position_value t else 0
  let exit_total2 : ℕ → ℚ := cumsum exit_value
  let running_total : ℕ → ℚ := fun t =>
    exit_total2 t + position_value t * (signal t : ℚ)
  (exit_value, exit_total2, running_total)

/-- The tuple returned by `_stats` in `src/bot/solve.py`:
final total, minimum cumulative total, win count, loss count, win ratio. -/
structure Stats where
  final_total : ℚ
  min_total : ℚ
  wins : ℕ
  losses : ℕ
  rat : ℚ
deriving DecidableEq, Repr

/-- Embedding of `_stats` from `src/bot/solve.py`.  The exit-value and
exit-total paths are finite lists; `exit_total[-1]`, `.min()` and `.max()`
are the last element, minimum and maximum of the second list (the numpy
code presupposes nonempty arrays; on the empty list we return `none`).
`final_total` is the last total clamped at 0, the candidate is rejected
when `final_total ≤ 0` or the maximum is below the absolute minimum, the
wins and losses are the sums of the indicators of strictly positive and
strictly negative exit values, and the ratio is `wins / (wins + losses)`
guarded against a zero denominator. -/
def _stats (exit_value exit_total : List ℚ) : Option Stats :=
  match exit_total.getLast?, exit_total.min?, exit_total.max? with
  | some lastTotal, some min_total, some max_total =>
    let final_total : ℚ := if lastTotal > 0 then lastTotal else 0
    if final_total ≤ 0 ∨ max_total < |min_total| then none
    else
      let wins : ℕ := (exit_value.map (fun v => if 0 < v then 1 else 0)).sum
      let losses : ℕ := (exit_value.map (fun v => if v < 0 then 1 else 0)).sum
      let rat : ℚ :=
        if 0 < wins + losses then (wins : ℚ) / ((wins : ℚ) + (losses : ℚ))
        else 0
      some ⟨final_total, min_total, wins, losses, rat⟩
  | _, _, _ => none

/-- The `EdgeCategory` enumeration.  Modelled from the spec: the defining
file `core/kernel.py` is not among the sources; the spec lists exactly the
two values `Deterministic` and `Quasi`. -/
inductive EdgeCategory where
  | Deterministic
  | Quasi
deriving DecidableEq, Repr

/-- The best-result record kept by the optimizer.  Modelled from the spec:
`BacktestResult` lives in `bot/common.py`, absent from the sources; the
spec lists its payload as the winning configuration, final cumulative
profit, win ratio, win count and loss count (the instrument identifier is
irrelevant to selection and omitted).  The configuration type is abstract
because `KernelConfig` also lives outside the sources. -/
structure BacktestResult (α : Type) where
  kernel_conf : α
  exit_total : ℚ
  rat : ℚ
  wins : ℕ
  losses : ℕ
deriving DecidableEq, Repr

/-- One loop iteration of `_find_max` from `src/bot/solve.py`, acting on
the state (total_found, best_result).  `force_edge` is the optional forced
edge filter (`solver_config.force_edge`, the empty string becoming
`none`); `edge` reads the candidate's edge category; `run` abstracts
`_solve_run` (the kernel invocation followed by `_stats`; the kernel is
outside the sources, so the evaluation of a candidate on the bar table is
a parameter).  The update condition is the Python expression
`best_result is None or (ratio >= best_result.ratio) and
(et >= best_result.exit_total)`, in which `and` binds tighter than `or`. -/
def find_max_step {α : Type} (force_edge : Option EdgeCategory)
    (edge : α → EdgeCategory) (run : α → Option Stats)
    (st : ℕ × Option (BacktestResult α)) (kernel_conf : α) :
    ℕ × Option (BacktestResult α) :=
  if (match force_edge with
      | some e => decide (e ≠ edge kernel_conf)
      | none => false) = true then st
  else
    match run kernel_conf with
    | none => st
    | some s =>
      let total_found := st.1 + 1
      let best : Option (BacktestResult α) :=
        match st.2 with
        | none => some ⟨kernel_conf, s.final_total, s.rat, s.wins, s.losses⟩
        | some b =>
          if s.rat ≥ b.rat ∧ s.final_total ≥ b.exit_total then
            some ⟨kernel_conf, s.final_total, s.rat, s.wins, s.losses⟩
          else some b
      (total_found, best)

/-- Embedding of `_find_max` from `src/bot/solve.py`: fold the loop body
over the enumerated candidate configurations starting from
(total_found = 0, best_result = None), and return `None` when
`total_found == 0`, the final best result otherwise.  Progress logging is
pure telemetry and is not modelled. -/
def _find_max {α : Type} (force_edge : Option EdgeCategory)
    (edge : α → EdgeCategory) (run : α → Option Stats)
    (configs : List α) : Option (BacktestResult α) :=
  let fin := configs.foldl (find_max_step force_edge edge run) (0, none)
  if fin.1 = 0 then none else fin.2

/-- The selection fold described by the spec, written from its words: the
first candidate that passes the statistics rule becomes the initial best
unconditionally, and a later passing candidate replaces the incumbent
precisely when its win ratio and its final total are both at least the
incumbent's.  Used to state the refinement theorem for `_find_max`. -/
def find_max_claim_step {α : Type} (run : α → Option Stats)
    (best : Option (BacktestResult α)) (c : α) : Option (BacktestResult α) :=
  match run c with
  | none => best
  | some s =>
    match best with
    | none => some ⟨c, s.final_total, s.rat, s.wins, s.losses⟩
    | some b =>
      if s.rat ≥ b.rat ∧ s.final_total ≥ b.exit_total then
        some ⟨c, s.final_total, s.rat, s.wins, s.losses⟩
      else some b

/-- Embedding of the aggregation performed by `segmented_solve` in
`src/bot/solve.py`.  The three optimizer passes and the holdout kernel
re-evaluations involve the kernel (outside the sources), so they are
abstracted: `raw_zk_result`, `refined_result_zk` and `result_pk` are the
outcomes of the three `_find_max` calls (each carrying the winning
configuration), and `holdout` maps a configuration to the final
`exit_total` of the kernel re-run on the holdout sample, `none` being NaN.
Mirroring the source line by line: when the raw search fails the function
returns (0, 0, 0); `raw_zk_bet` is the raw holdout total with NaN replaced
by 0; `zk_bet` is the refined holdout total taken as is when the refined
search succeeded (the source checks `isnan(zk_bet)` only inside the else
branch, right after `zk_bet = 0.0`, so that check is dead and a NaN is
returned unreplaced); `pk_bet` is the perfect-knowledge holdout total with
NaN replaced by 0. -/
def segmented_solve {α : Type} (raw_zk_result refined_result_zk result_pk : Option α)
    (holdout : α → Option ℚ) : Option ℚ × Option ℚ × Option ℚ :=
  match raw_zk_result with
  | none => (some 0, some 0, some 0)
  | some rawConf =>
    let raw_zk_bet : Option ℚ :=
      match holdout rawConf with
      | none => some 0
      | some v => some v
    let zk_bet : Option ℚ :=
      match refined_result_zk with
      | some refConf => holdout refConf
      | none =>
        match (some 0 : Option ℚ) with
        | none => some 0
        | some v => some v
    let pk_bet : Option ℚ :=
      match result_pk with
      | some pkConf =>
        match holdout pkConf with
        | none => some 0
        | some v => some v
      | none => some 0
    (raw_zk_bet, zk_bet, pk_bet)

/-- Unfolding lemma for the overridden signal of `take_profit`. -/
theorem take_profit_fst (position_value atr : ℕ → ℚ) (signal trigger : ℕ → ℤ)
    (v : ℚ) (u : ℕ) :
    (take_profit position_value atr signal v trigger).1 u
      = if position_value u > v * atr u ∧ trigger u ≠ 1 then 0 else signal u := rfl

/-- Unfolding lemma for the rebuilt trigger of `take_profit`. -/
theorem take_profit_snd (position_value atr : ℕ → ℚ) (signal trigger : ℕ → ℤ)
    (v : ℚ) :
    (take_profit position_value atr signal v trigger).2 0 = 0
    ∧ ∀ t, (take_profit position_value atr signal v trigger).2 (t + 1)
        = (take_profit position_value atr signal v trigger).1 (t + 1)
          - (take_profit position_value atr signal v trigger).1 t :=
  ⟨rfl, fun _ => rfl⟩

/-- Unfolding lemma for the overridden signal of `stop_loss`. -/
theorem stop_loss_fst (position_value atr : ℕ → ℚ) (signal trigger : ℕ → ℤ)
    (v : ℚ) (u : ℕ) :
    (stop_loss position_value atr signal v trigger).1 u
      = if position_value u < -v * atr u then 0 else signal u := rfl

/-- Unfolding lemma for the rebuilt trigger of `stop_loss`. -/
theorem stop_loss_snd (position_value atr : ℕ → ℚ) (signal trigger : ℕ → ℤ)
    (v : ℚ) :
    (stop_loss position_value atr signal v trigger).2 0 = 0
    ∧ ∀ t, (stop_loss position_value atr signal v trigger).2 (t + 1)
        = (stop_loss position_value atr signal v trigger).1 (t + 1)
          - (stop_loss position_value atr signal v trigger).1 t :=
  ⟨rfl, fun _ => rfl⟩

/-- C5: `take_profit` forces the signal to 0 exactly at the bars where the
position value strictly exceeds the take-profit multiplier times the ATR
and the incoming trigger is not 1; at a bar where the position value
exactly equals the threshold, or where the trigger equals 1, the signal is
left unchanged. -/
theorem take_profit_override (position_value atr : ℕ → ℚ) (signal trigger : ℕ → ℤ)
    (v : ℚ) (t : ℕ) :
    ((position_value t > v * atr t ∧ trigger t ≠ 1) →
      (take_profit position_value atr signal v trigger).1 t = 0)
    ∧ (¬(position_value t > v * atr t ∧ trigger t ≠ 1) →
      (take_profit position_value atr signal v trigger).1 t = signal t)
    ∧ (position_value t = v * atr t →
      (take_profit position_value atr signal v trigger).1 t = signal t)
    ∧ (trigger t = 1 →
      (take_profit position_value atr signal v trigger).1 t = signal t) := by
  refine ⟨fun h => ?_, fun h => ?_, fun h => ?_, fun h => ?_⟩
  · rw [take_profit_fst, if_pos h]
  · rw [take_profit_fst, if_neg h]
  · rw [take_profit_fst, if_neg ?_]
    rintro ⟨h1, -⟩
    rw [h] at h1
    exact lt_irrefl _ h1
  · rw [take_profit_fst, if_neg ?_]
    rintro ⟨-, h2⟩
    exact h2 h

/-- Witness for C5 at a concrete input: the override fires at bar 0 where
the position value 2 exceeds the threshold 1 and the trigger is 0. -/
theorem take_profit_override_witness :
    (take_profit (fun _ => (2 : ℚ)) (fun _ => 1) (fun _ => (1 : ℤ)) 1
      (fun _ => 0)).1 0 = 0 :=
  (take_profit_override (fun _ => (2 : ℚ)) (fun _ => 1) (fun _ => (1 : ℤ))
    (fun _ => 0) 1 0).1 ⟨by norm_num, by decide⟩

/-- C6: `stop_loss` forces the signal to 0 at every bar where the position
value is strictly below the negated stop-loss multiplier times the ATR,
regardless of the trigger; applied after `take_profit` it can therefore
zero any such bar, so stop-loss dominates take-profit in the override
order. -/
theorem stop_loss_override (position_value atr : ℕ → ℚ) (signal trigger : ℕ → ℤ)
    (v : ℚ) (t : ℕ) :
    (position_value t < -v * atr t →
      (stop_loss position_value atr signal v trigger).1 t = 0)
    ∧ (∀ tpv : ℚ, position_value t < -v * atr t →
      (stop_loss position_value atr
          ((take_profit position_value atr signal tpv trigger).1) v
          ((take_profit position_value atr signal tpv trigger).2)).1 t = 0) := by
  refine ⟨fun h => ?_, fun tpv h => ?_⟩
  · rw [stop_loss_fst, if_pos h]
  · rw [stop_loss_fst, if_pos h]

/-- Witness for C6 at a concrete input: with position value -3, ATR 1 and
stop-loss multiplier 1 the threshold is -1 and the signal is zeroed, also
when stop-loss runs on the output of take-profit. -/
theorem stop_loss_override_witness :
    (stop_loss (fun _ => (-3 : ℚ)) (fun _ => 1) (fun _ => (1 : ℤ)) 1
      (fun _ => 0)).1 0 = 0
    ∧ (stop_loss (fun _ => (-3 : ℚ)) (fun _ => 1)
        ((take_profit (fun _ => (-3 : ℚ)) (fun _ => 1) (fun _ => (1 : ℤ)) 2
          (fun _ => 0)).1) 1
        ((take_profit (fun _ => (-3 : ℚ)) (fun _ => 1) (fun _ => (1 : ℤ)) 2
          (fun _ => 0)).2)).1 0 = 0 :=
  ⟨(stop_loss_override (fun _ => (-3 : ℚ)) (fun _ => 1) (fun _ => (1 : ℤ))
      (fun _ => 0) 1 0).1 (by norm_num),
   (stop_loss_override (fun _ => (-3 : ℚ)) (fun _ => 1) (fun _ => (1 : ℤ))
      (fun _ => 0) 1 0).2 2 (by norm_num)⟩

/-- C10: the overrides only ever zero a signal, never create or reverse
one: at every bar the output signal of `take_profit` and of `stop_loss` is
0 or the input signal, so every per-bar membership invariant of the input
signal that contains 0 is preserved by both overrides. -/
theorem override_only_zeroes (position_value atr : ℕ → ℚ) (signal trigger : ℕ → ℤ)
    (v w : ℚ) :
    (∀ t, (take_profit position_value atr signal v trigger).1 t = 0
        ∨ (take_profit position_value atr signal v trigger).1 t = signal t)
    ∧ (∀ t, (stop_loss position_value atr signal w trigger).1 t = 0
        ∨ (stop_loss position_value atr signal w trigger).1 t = signal t)
    ∧ (∀ P : ℤ → Prop, P 0 → (∀ t, P (signal t)) →
        ∀ t, P ((take_profit position_value atr signal v trigger).1 t)
          ∧ P ((stop_loss position_value atr signal w trigger).1 t)) := by
  have htp : ∀ t, (take_profit position_value atr signal v trigger).1 t = 0
      ∨ (take_profit position_value atr signal v trigger).1 t = signal t := by
    intro t
    rw [take_profit_fst]
    by_cases h : position_value t > v * atr t ∧ trigger t ≠ 1
    · exact Or.inl (if_pos h)
    · exact Or.inr (if_neg h)
  have hsl : ∀ t, (stop_loss position_value atr signal w trigger).1 t = 0
      ∨ (stop_loss position_value atr signal w trigger).1 t = signal t := by
    intro t
    rw [stop_loss_fst]
    by_cases h : position_value t < -w * atr t
    · exact Or.inl (if_pos h)
    · exact Or.inr (if_neg h)
  refine ⟨htp, hsl, fun P h0 hP t => ⟨?_, ?_⟩⟩
  · rcases htp t with h | h <;> rw [h]
    · exact h0
    · exact hP t
  · rcases hsl t with h | h <;> rw [h]
    · exact h0
    · exact hP t

/-- Witness for C10 at a concrete input: the invariant of being 0 or 1 is
preserved through both overrides at bar 0. -/
theorem override_only_zeroes_witness :
    ((take_profit (fun _ => (2 : ℚ)) (fun _ => 1) (fun _ => (1 : ℤ)) 1
        (fun _ => 0)).1 0 = 0
      ∨ (take_profit (fun _ => (2 : ℚ)) (fun _ => 1) (fun _ => (1 : ℤ)) 1
        (fun _ => 0)).1 0 = 1)
    ∧ ((stop_loss (fun _ => (2 : ℚ)) (fun _ => 1) (fun _ => (1 : ℤ)) 1
        (fun _ => 0)).1 0 = 0
      ∨ (stop_loss (fun _ => (2 : ℚ)) (fun _ => 1) (fun _ => (1 : ℤ)) 1
        (fun _ => 0)).1 0 = 1) :=
  ⟨(override_only_zeroes (fun _ => (2 : ℚ)) (fun _ => 1) (fun _ => (1 : ℤ))
      (fun _ => 0) 1 1).1 0,
   (override_only_zeroes (fun _ => (2 : ℚ)) (fun _ => 1) (fun _ => (1 : ℤ))
      (fun _ => 0) 1 1).2.1 0⟩

/-- C7 (amended): for every signal array with per-bar values in -1, 0, 1,
the trigger returned by `take_profit` and by `stop_loss` is the first
difference of the returned signal with first entry 0, and every trigger
value lies in the interval from -2 to 2 (a difference of two values from
-1, 0, 1 — it need not lie in -1, 0, 1). -/
theorem trigger_first_difference (position_value atr : ℕ → ℚ)
    (signal trigger : ℕ → ℤ) (v w : ℚ)
    (hs : ∀ u, signal u = -1 ∨ signal u = 0 ∨ signal u = 1) :
    ((take_profit position_value atr signal v trigger).2 0 = 0)
    ∧ (∀ t, (take_profit position_value atr signal v trigger).2 (t + 1)
        = (take_profit position_value atr signal v trigger).1 (t + 1)
          - (take_profit position_value atr signal v trigger).1 t)
    ∧ (∀ t, -2 ≤ (take_profit position_value atr signal v trigger).2 t
        ∧ (take_profit position_value atr signal v trigger).2 t ≤ 2)
    ∧ ((stop_loss position_value atr signal w trigger).2 0 = 0)
    ∧ (∀ t, (stop_loss position_value atr signal w trigger).2 (t + 1)
        = (stop_loss position_value atr signal w trigger).1 (t + 1)
          - (stop_loss position_value atr signal w trigger).1 t)
    ∧ (∀ t, -2 ≤ (stop_loss position_value atr signal w trigger).2 t
        ∧ (stop_loss position_value atr signal w trigger).2 t ≤ 2) := by
  have hmem := (override_only_zeroes position_value atr signal trigger v w).2.2
    (fun z => z = -1 ∨ z = 0 ∨ z = 1) (Or.inr (Or.inl rfl)) hs
  have hrange : ∀ a b : ℤ,
      (a = -1 ∨ a = 0 ∨ a = 1) → (b = -1 ∨ b = 0 ∨ b = 1) →
      -2 ≤ a - b ∧ a - b ≤ 2 := by
    intro a b ha hb
    rcases ha with h | h | h <;> rcases hb with h2 | h2 | h2 <;>
      rw [h, h2] <;> norm_num
  refine ⟨(take_profit_snd position_value atr signal trigger v).1,
    (take_profit_snd position_value atr signal trigger v).2, fun t => ?_,
    (stop_loss_snd position_value atr signal trigger w).1,
    (stop_loss_snd position_value atr signal trigger w).2, fun t => ?_⟩
  · cases t with
    | zero =>
      rw [(take_profit_snd position_value atr signal trigger v).1]
      norm_num
    | succ n =>
      rw [(take_profit_snd position_value atr signal trigger v).2 n]
      exact hrange _ _ (hmem (n + 1)).1 (hmem n).1
  · cases t with
    | zero =>
      rw [(stop_loss_snd position_value atr signal trigger w).1]
      norm_num
    | succ n =>
      rw [(stop_loss_snd position_value atr signal trigger w).2 n]
      exact hrange _ _ (hmem (n + 1)).2 (hmem n).2

/-- Witness for C7 (amended) at a concrete input: the constant signal 1
with all-zero trigger has overridden trigger 0 at bar 0 and first
differences of the overridden signal afterwards, in range. -/
theorem trigger_first_difference_witness :
    (take_profit (fun _ => (0 : ℚ)) (fun _ => 1) (fun _ => (1 : ℤ)) 1
      (fun _ => 0)).2 0 = 0
    ∧ (-2 ≤ (take_profit (fun _ => (0 : ℚ)) (fun _ => 1) (fun _ => (1 : ℤ)) 1
        (fun _ => 0)).2 1
      ∧ (take_profit (fun _ => (0 : ℚ)) (fun _ => 1) (fun _ => (1 : ℤ)) 1
        (fun _ => 0)).2 1 ≤ 2) :=
  ⟨(trigger_first_difference (fun _ => (0 : ℚ)) (fun _ => 1) (fun _ => (1 : ℤ))
      (fun _ => 0) 1 1 (fun _ => Or.inr (Or.inr rfl))).1,
   (trigger_first_difference (fun _ => (0 : ℚ)) (fun _ => 1) (fun _ => (1 : ℤ))
      (fun _ => 0) 1 1 (fun _ => Or.inr (Or.inr rfl))).2.2.1 1⟩

/-- C7 counterexample: the signal array (-1, 1, 1, ...) has every entry in
-1, 0, 1, yet the trigger rebuilt by `take_profit` (with a threshold the
position value never exceeds, so the signal passes through unchanged) is 2
at bar 1, and 2 is none of -1, 0, 1. -/
theorem trigger_range_counterexample :
    (∀ u, (if u = 0 then (-1 : ℤ) else 1) = -1
        ∨ (if u = 0 then (-1 : ℤ) else 1) = 0
        ∨ (if u = 0 then (-1 : ℤ) else 1) = 1)
    ∧ (take_profit (fun _ => (0 : ℚ)) (fun _ => 1)
        (fun u => if u = 0 then (-1 : ℤ) else 1) 1 (fun _ => 0)).2 1 = 2
    ∧ ¬((2 : ℤ) = -1 ∨ (2 : ℤ) = 0 ∨ (2 : ℤ) = 1) := by
  refine ⟨fun u => ?_, ?_, by decide⟩
  · by_cases h : u = 0
    · rw [if_pos h]
      exact Or.inl rfl
    · rw [if_neg h]
      exact Or.inr (Or.inr rfl)
  · rw [(take_profit_snd (fun _ => (0 : ℚ)) (fun _ => 1)
      (fun u => if u = 0 then (-1 : ℤ) else 1) (fun _ => 0) 1).2 0]
    rw [take_profit_fst, take_profit_fst]
    norm_num

/-- C8: `exit_total` returns the exit-value array equal to the position
value at bars with trigger -1 and 0 elsewhere, the exit-total array equal
to the running cumulative sum of the exit values, and the running-total
array equal at every bar to the exit total plus the open position's
mark-to-market value (the position value times the directional signal,
which is 0 when no position is open). -/
theorem exit_total_spec (position_value : ℕ → ℚ) (trigger signal : ℕ → ℤ) :
    (∀ t, trigger t = -1 →
      (exit_total position_value trigger signal).1 t = position_value t)
    ∧ (∀ t, trigger t ≠ -1 → (exit_total position_value trigger signal).1 t = 0)
    ∧ ((exit_total position_value trigger signal).2.1 0
        = (exit_total position_value trigger signal).1 0)
    ∧ (∀ t, (exit_total position_value trigger signal).2.1 (t + 1)
        = (exit_total position_value trigger signal).2.1 t
          + (exit_total position_value trigger signal).1 (t + 1))
    ∧ (∀ t, (exit_total position_value trigger signal).2.2 t
        = (exit_total position_value trigger signal).2.1 t
          + position_value t * (signal t : ℚ)) := by
  refine ⟨fun t h => ?_, fun t h => ?_, rfl, fun t => rfl, fun t => rfl⟩
  · show (if trigger t = -1 then position_value t else 0) = position_value t
    rw [if_pos h]
  · show (if trigger t = -1 then position_value t else 0) = 0
    rw [if_neg h]

/-- Witness for C8 at a concrete input: with trigger -1 at every bar the
exit value at bar 0 is the position value 5, and the cumulative and
running totals satisfy their defining equations there. -/
theorem exit_total_spec_witness :
    (exit_total (fun _ => (5 : ℚ)) (fun _ => -1) (fun _ => 0)).1 0 = 5
    ∧ (exit_total (fun _ => (5 : ℚ)) (fun _ => -1) (fun _ => 0)).2.1 1
        = (exit_total (fun _ => (5 : ℚ)) (fun _ => -1) (fun _ => 0)).2.1 0
          + (exit_total (fun _ => (5 : ℚ)) (fun _ => -1) (fun _ => 0)).1 1
    ∧ (exit_total (fun _ => (5 : ℚ)) (fun _ => -1) (fun _ => 0)).2.2 0
        = (exit_total (fun _ => (5 : ℚ)) (fun _ => -1) (fun _ => 0)).2.1 0
          + 5 * ((0 : ℤ) : ℚ) :=
  ⟨(exit_total_spec (fun _ => (5 : ℚ)) (fun _ => -1) (fun _ => 0)).1 0 rfl,
   (exit_total_spec (fun _ => (5 : ℚ)) (fun _ => -1) (fun _ => 0)).2.2.2.1 0,
   (exit_total_spec (fun _ => (5 : ℚ)) (fun _ => -1) (fun _ => 0)).2.2.2.2 0⟩

/-- Sum of 0/1 indicators over a list equals the count of elements
satisfying the predicate. -/
theorem sum_indicator_eq_countP (p : ℚ → Prop) [DecidablePred p] (l : List ℚ) :
    (l.map (fun v => if p v then (1 : ℕ) else 0)).sum
      = l.countP (fun v => decide (p v)) := by
  induction l with
  | nil => rfl
  | cons a l ih =>
    rw [List.map_cons, List.sum_cons, List.countP_cons, ih]
    by_cases h : p a
    · simp [h, Nat.add_comm]
    · simp [h]

/-- C2: `_stats` rejects (returns `none`) exactly when the final
cumulative exit total is at most 0 or the maximum cumulative total is
strictly smaller than the absolute value of the minimum cumulative total;
and any returned result comes from a path violating neither condition. -/
theorem stats_rejection (exit_value path : List ℚ) (lastTotal m M : ℚ)
    (hl : path.getLast? = some lastTotal)
    (hm : path.min? = some m)
    (hM : path.max? = some M) :
    (_stats exit_value path = none ↔ lastTotal ≤ 0 ∨ M < |m|)
    ∧ (∀ s, _stats exit_value path = some s → 0 < lastTotal ∧ |m| ≤ M) := by
  have hcond : ((if lastTotal > 0 then lastTotal else 0) ≤ 0 ∨ M < |m|)
      ↔ (lastTotal ≤ 0 ∨ M < |m|) := by
    by_cases h : lastTotal > 0
    · rw [if_pos h]
    · rw [if_neg h]
      push_neg at h
      simp [h]
  have hiff : _stats exit_value path = none ↔ lastTotal ≤ 0 ∨ M < |m| := by
    simp only [_stats, hl, hm, hM]
    by_cases h : (if lastTotal > 0 then lastTotal else 0) ≤ 0 ∨ M < |m|
    · rw [if_pos h]
      exact iff_of_true rfl (hcond.mp h)
    · rw [if_neg h]
      exact iff_of_false (fun hc => Option.noConfusion hc) (fun hc => h (hcond.mpr hc))
  refine ⟨hiff, fun s hs => ?_⟩
  have h2 : ¬(lastTotal ≤ 0 ∨ M < |m|) := by
    intro h
    rw [hiff.mpr h] at hs
    exact Option.noConfusion hs
  push_neg at h2
  exact h2

/-- Witness for C2 at a concrete input: the path with final total -1 is
rejected, with last element, minimum and maximum all equal to -1. -/
theorem stats_rejection_witness :
    (_stats ([] : List ℚ) [-1] = none ↔ (-1 : ℚ) ≤ 0 ∨ (-1 : ℚ) < |(-1 : ℚ)|)
    ∧ (∀ s, _stats ([] : List ℚ) [-1] = some s →
        0 < (-1 : ℚ) ∧ |(-1 : ℚ)| ≤ (-1 : ℚ)) :=
  stats_rejection [] [-1] (-1) (-1) (-1) rfl rfl rfl

/-- C9: on an accepted path the win count is the number of strictly
positive exit values, the loss count the number of strictly negative exit
values, the win ratio is wins over wins plus losses when some exit
occurred and 0 otherwise, and the ratio always lies between 0 and 1. -/
theorem stats_win_loss (exit_value path : List ℚ) (s : Stats)
    (h : _stats exit_value path = some s) :
    s.wins = exit_value.countP (fun v => decide (0 < v))
    ∧ s.losses = exit_value.countP (fun v => decide (v < 0))
    ∧ (0 < s.wins + s.losses →
        s.rat = (s.wins : ℚ) / ((s.wins : ℚ) + (s.losses : ℚ)))
    ∧ (s.wins + s.losses = 0 → s.rat = 0)
    ∧ 0 ≤ s.rat ∧ s.rat ≤ 1 := by
  unfold _stats at h
  rcases hgl : path.getLast? with - | lastTotal <;> rw [hgl] at h
  · exact absurd h (by simp)
  rcases hmn : path.min? with - | m <;> rw [hmn] at h
  · exact absurd h (by simp)
  rcases hmx : path.max? with - | M <;> rw [hmx] at h
  · exact absurd h (by simp)
  simp only [] at h
  by_cases hrej : (if lastTotal > 0 then lastTotal else 0) ≤ 0 ∨ M < |m|
  · rw [if_pos hrej] at h
    exact absurd h (by simp)
  rw [if_neg hrej] at h
  have hw : s.wins = exit_value.countP (fun v => decide (0 < v)) := by
    rw [← sum_indicator_eq_countP]
    exact (congrArg Stats.wins (Option.some.inj h)).symm
  have hlo : s.losses = exit_value.countP (fun v => decide (v < 0)) := by
    rw [← sum_indicator_eq_countP]
    exact (congrArg Stats.losses (Option.some.inj h)).symm
  have hw2 : s.wins = (exit_value.map (fun v => if 0 < v then (1 : ℕ) else 0)).sum :=
    (congrArg Stats.wins (Option.some.inj h)).symm
  have hl2 : s.losses = (exit_value.map (fun v => if v < 0 then (1 : ℕ) else 0)).sum :=
    (congrArg Stats.losses (Option.some.inj h)).symm
  have hrat : s.rat = if 0 < s.wins + s.losses
      then (s.wins : ℚ) / ((s.wins : ℚ) + (s.losses : ℚ)) else 0 := by
    have := (congrArg Stats.rat (Option.some.inj h)).symm
    rw [this, hw2, hl2]
  refine ⟨hw, hlo, fun hpos => ?_, fun hz => ?_, ?_, ?_⟩
  · rw [hrat, if_pos hpos]
  · rw [hrat, if_neg (by omega)]
  · rw [hrat]
    by_cases hpos : 0 < s.wins + s.losses
    · rw [if_pos hpos]
      have hd : (0 : ℚ) < (s.wins : ℚ) + (s.losses : ℚ) := by
        have : (0 : ℚ) < ((s.wins + s.losses : ℕ) : ℚ) := by
          exact_mod_cast hpos
        rwa [Nat.cast_add] at this
      positivity
    · rw [if_neg hpos]
  · rw [hrat]
    by_cases hpos : 0 < s.wins + s.losses
    · rw [if_pos hpos]
      have hd : (0 : ℚ) < (s.wins : ℚ) + (s.losses : ℚ) := by
        have : (0 : ℚ) < ((s.wins + s.losses : ℕ) : ℚ) := by
          exact_mod_cast hpos
        rwa [Nat.cast_add] at this
      rw [div_le_one hd]
      have : (0 : ℚ) ≤ (s.losses : ℚ) := by positivity
      linarith
    · rw [if_neg hpos]
      norm_num

/-- Witness for C9 at a concrete input: the empty exit-value list with the
accepted path with total 1 yields 0 wins, 0 losses and ratio 0. -/
theorem stats_win_loss_witness :
    (Stats.mk 1 1 0 0 0).wins = List.countP (fun v => decide (0 < v)) ([] : List ℚ)
    ∧ (Stats.mk 1 1 0 0 0).losses = List.countP (fun v => decide (v < 0)) ([] : List ℚ)
    ∧ (0 < (Stats.mk 1 1 0 0 0).wins + (Stats.mk 1 1 0 0 0).losses →
        (Stats.mk 1 1 0 0 0).rat = ((Stats.mk 1 1 0 0 0).wins : ℚ)
          / (((Stats.mk 1 1 0 0 0).wins : ℚ) + ((Stats.mk 1 1 0 0 0).losses : ℚ)))
    ∧ ((Stats.mk 1 1 0 0 0).wins + (Stats.mk 1 1 0 0 0).losses = 0 →
        (Stats.mk 1 1 0 0 0).rat = 0)
    ∧ 0 ≤ (Stats.mk 1 1 0 0 0).rat ∧ (Stats.mk 1 1 0 0 0).rat ≤ 1 :=
  stats_win_loss [] [1] (Stats.mk 1 1 0 0 0) (by norm_num [_stats])

/-- The loop state invariant of `_find_max` with no edge filter:
`total_found` is zero exactly when no best result is held, and the best
result evolves exactly as the spec's selection fold prescribes. -/
theorem find_max_fold_invariant {α : Type} (edge : α → EdgeCategory)
    (run : α → Option Stats) (configs : List α) :
    ∀ (n : ℕ) (b : Option (BacktestResult α)), (n = 0 ↔ b = none) →
      ((configs.foldl (find_max_step none edge run) (n, b)).1 = 0
        ↔ (configs.foldl (find_max_step none edge run) (n, b)).2 = none)
      ∧ (configs.foldl (find_max_step none edge run) (n, b)).2
        = configs.foldl (find_max_claim_step run) b := by
  induction configs with
  | nil => exact fun n b hnb => ⟨hnb, rfl⟩
  | cons c cs ih =>
    intro n b hnb
    rw [List.foldl_cons, List.foldl_cons]
    rcases hr : run c with - | s
    · have h1 : find_max_step none edge run (n, b) c = (n, b) := by
        simp [find_max_step, hr]
      have h2 : find_max_claim_step run b c = b := by
        simp [find_max_claim_step, hr]
      rw [h1, h2]
      exact ih n b hnb
    · cases b with
      | none =>
        have h1 : find_max_step none edge run (n, none) c
            = (n + 1, some ⟨c, s.final_total, s.rat, s.wins, s.losses⟩) := by
          simp [find_max_step, hr]
        have h2 : find_max_claim_step run none c
            = some ⟨c, s.final_total, s.rat, s.wins, s.losses⟩ := by
          simp [find_max_claim_step, hr]
        rw [h1, h2]
        exact ih (n + 1) _ (by simp)
      | some b0 =>
        by_cases hc : s.rat ≥ b0.rat ∧ s.final_total ≥ b0.exit_total
        · have h1 : find_max_step none edge run (n, some b0) c
              = (n + 1, some ⟨c, s.final_total, s.rat, s.wins, s.losses⟩) := by
            simp [find_max_step, hr, hc]
          have h2 : find_max_claim_step run (some b0) c
              = some ⟨c, s.final_total, s.rat, s.wins, s.losses⟩ := by
            simp [find_max_claim_step, hr, hc]
          rw [h1, h2]
          exact ih (n + 1) _ (by simp)
        · have h1 : find_max_step none edge run (n, some b0) c
              = (n + 1, some b0) := by
            simp [find_max_step, hr, hc]
          have h2 : find_max_claim_step run (some b0) c = some b0 := by
            simp [find_max_claim_step, hr, hc]
          rw [h1, h2]
          exact ih (n + 1) _ (by simp)

/-- The selection fold of the spec yields no result exactly when it
started with none and every candidate is rejected by the statistics. -/
theorem claim_fold_none_iff {α : Type} (run : α → Option Stats)
    (configs : List α) :
    ∀ b, configs.foldl (find_max_claim_step run) b = none
      ↔ (b = none ∧ ∀ c ∈ configs, run c = none) := by
  have hstep : ∀ (b : Option (BacktestResult α)) (c : α),
      find_max_claim_step run b c = none ↔ b = none ∧ run c = none := by
    intro b c
    rcases hr : run c with - | s
    · cases b <;> simp [find_max_claim_step, hr]
    · cases b with
      | none => simp [find_max_claim_step, hr]
      | some b0 =>
        by_cases hc : s.rat ≥ b0.rat ∧ s.final_total ≥ b0.exit_total <;>
          simp [find_max_claim_step, hr, hc]
  induction configs with
  | nil => simp
  | cons c cs ih =>
    intro b
    rw [List.foldl_cons, ih, hstep]
    constructor
    · rintro ⟨⟨hb, hrc⟩, hall⟩
      exact ⟨hb, fun d hd => by
        rcases List.mem_cons.mp hd with h | h
        · rw [h]; exact hrc
        · exact hall d h⟩
    · rintro ⟨hb, hall⟩
      exact ⟨⟨hb, hall c (List.mem_cons_self c cs)⟩,
        fun d hd => hall d (List.mem_cons_of_mem c hd)⟩

/-- C1: with no forced-edge filter, `_find_max` returns nothing exactly
when every enumerated candidate is rejected by the statistics rule, and
otherwise it computes the selection fold in enumeration order: the first
passing candidate becomes the initial best unconditionally and a later
passing candidate replaces the incumbent exactly when its win ratio and
its final total are both at least the incumbent's. -/
theorem find_max_characterization {α : Type} (edge : α → EdgeCategory)
    (run : α → Option Stats) (configs : List α) :
    (_find_max none edge run configs = none ↔ ∀ c ∈ configs, run c = none)
    ∧ _find_max none edge run configs
      = configs.foldl (find_max_claim_step run) none := by
  have hinv := find_max_fold_invariant edge run configs 0 none (by simp)
  have hfm : _find_max none edge run configs
      = if (configs.foldl (find_max_step none edge run) (0, none)).1 = 0 then none
        else (configs.foldl (find_max_step none edge run) (0, none)).2 := rfl
  have hmain : _find_max none edge run configs
      = configs.foldl (find_max_claim_step run) none := by
    rw [hfm]
    by_cases h0 : (configs.foldl (find_max_step none edge run) (0, none)).1 = 0
    · rw [if_pos h0, ← hinv.2, hinv.1.mp h0]
    · rw [if_neg h0, hinv.2]
  refine ⟨?_, hmain⟩
  rw [hmain, claim_fold_none_iff]
  simp

/-- Witness for C1 at a concrete input: with the single candidate rejected
by the statistics the optimizer returns nothing, and it agrees with the
selection fold. -/
theorem find_max_characterization_witness :
    (_find_max none (fun _ : Unit => EdgeCategory.Deterministic)
        (fun _ => (none : Option Stats)) [()] = none
      ↔ ∀ c ∈ [()], (fun _ : Unit => (none : Option Stats)) c = none)
    ∧ _find_max none (fun _ : Unit => EdgeCategory.Deterministic)
        (fun _ => (none : Option Stats)) [()]
      = List.foldl (find_max_claim_step (fun _ : Unit => (none : Option Stats)))
          none [()] :=
  find_max_characterization (fun _ : Unit => EdgeCategory.Deterministic)
    (fun _ => (none : Option Stats)) [()]

/-- Forward fill of the entry-event series is NaN while no entry event has
occurred yet. -/
theorem forward_fill_no_entry (trigger : ℕ → ℤ) (entry : ℕ → ℚ) :
    ∀ t, (∀ s, s ≤ t → trigger s ≠ 1) →
      forward_fill (fun i => if trigger i = 1 then some (entry i) else none) t
        = none := by
  intro t
  induction t with
  | zero =>
    intro h
    simp [forward_fill, h 0 le_rfl]
  | succ n ih =>
    intro h
    simp only [forward_fill, if_neg (h (n + 1) le_rfl)]
    exact ih (fun s hs => h s (le_trans hs (Nat.le_succ n)))

/-- Forward fill of the entry-event series carries the entry price of the
most recent entry event at or before the current bar. -/
theorem forward_fill_last_entry (trigger : ℕ → ℤ) (entry : ℕ → ℚ) :
    ∀ t s, s ≤ t → trigger s = 1 → (∀ u, s < u → u ≤ t → trigger u ≠ 1) →
      forward_fill (fun i => if trigger i = 1 then some (entry i) else none) t
        = some (entry s) := by
  intro t
  induction t with
  | zero =>
    intro s hs h1 _
    have hz : s = 0 := Nat.le_zero.mp hs
    subst hz
    simp [forward_fill, h1]
  | succ n ih =>
    intro s hs h1 hlast
    by_cases hsn : s = n + 1
    · subst hsn
      simp [forward_fill, h1]
    · have hs' : s ≤ n := by omega
      have htn : trigger (n + 1) ≠ 1 := hlast (n + 1) (by omega) le_rfl
      simp only [forward_fill, if_neg htn]
      exact ih s hs' h1 (fun u hu1 hu2 => hlast u hu1 (by omega))

/-- C4: `entry_price` captures the entry-side price at each bar where the
trigger is 1 and carries it forward unchanged to later bars; the returned
position value is the exit price minus that forward-filled entry price
wherever the signal or the trigger is nonzero, exactly 0 wherever neither
is (once an entry has occurred), and NaN (`none`) at every bar before the
first entry event. -/
theorem entry_price_spec (entry exit : ℕ → ℚ) (signal trigger : ℕ → ℤ) (t : ℕ) :
    ((∀ s, s ≤ t → trigger s ≠ 1) →
      entry_price entry exit signal trigger t = none)
    ∧ (∀ s, s ≤ t → trigger s = 1 → (∀ u, s < u → u ≤ t → trigger u ≠ 1) →
        ((signal t = 0 ∧ trigger t = 0) →
          entry_price entry exit signal trigger t = some 0)
        ∧ (¬(signal t = 0 ∧ trigger t = 0) →
          entry_price entry exit signal trigger t
            = some (exit t - entry s))) := by
  refine ⟨fun h => ?_, fun s hs h1 hlast => ⟨fun hmask => ?_, fun hmask => ?_⟩⟩
  · rw [entry_price]
    rw [forward_fill_no_entry trigger entry t h]
    simp [nanMulMask, nanSub]
  · rw [entry_price]
    rw [forward_fill_last_entry trigger entry t s hs h1 hlast]
    have hdec : decide (signal t ≠ 0 ∨ trigger t ≠ 0) = false := by
      simp [hmask.1, hmask.2]
    simp [hdec, nanMulMask, nanSub]
  · rw [entry_price]
    rw [forward_fill_last_entry trigger entry t s hs h1 hlast]
    have hdec : decide (signal t ≠ 0 ∨ trigger t ≠ 0) = true := by
      rcases Decidable.not_and_iff_or_not.mp hmask with h | h <;> simp [h]
    simp [hdec, nanMulMask, nanSub]

/-- Witness for C4 at a concrete input: with trigger 1 only at bar 1,
entry prices equal to the bar index and exit price 10, the position value
is NaN at bar 0 and 10 minus 1 at bar 2 where the signal is 1. -/
theorem entry_price_spec_witness :
    entry_price (fun u => (u : ℚ)) (fun _ => 10)
      (fun u => if u = 0 then 0 else 1) (fun u => if u = 1 then 1 else 0) 0 = none
    ∧ entry_price (fun u => (u : ℚ)) (fun _ => 10)
      (fun u => if u = 0 then 0 else 1) (fun u => if u = 1 then 1 else 0) 2
        = some (10 - (1 : ℚ)) :=
  ⟨(entry_price_spec (fun u => (u : ℚ)) (fun _ => 10)
      (fun u => if u = 0 then 0 else 1) (fun u => if u = 1 then 1 else 0) 0).1
      (fun s hs => by
        have hz : s = 0 := Nat.le_zero.mp hs
        subst hz
        decide),
   ((entry_price_spec (fun u => (u : ℚ)) (fun _ => 10)
      (fun u => if u = 0 then 0 else 1) (fun u => if u = 1 then 1 else 0) 2).2
      1 (by omega) (by decide)
      (fun u hu1 hu2 => by
        have hz : u = 2 := by omega
        subst hz
        decide)).2 (by decide)⟩

/-- C3 at the failing input: when the raw search succeeds, the refined
search also succeeds, and the refined configuration's holdout exit total
is NaN, `segmented_solve` returns NaN (not 0) as the refined
zero-knowledge component, while the raw and perfect-knowledge components
are NaN-guarded as intended.  Here configurations are booleans, the raw
and perfect-knowledge winner (`true`) evaluates to 1 on the holdout and
the refined winner (`false`) evaluates to NaN. -/
theorem segmented_solve_nan_leak :
    (segmented_solve (some true) (some false) (some true)
      (fun b => if b then some (1 : ℚ) else none)).2.1 = none
    ∧ (segmented_solve (some true) (some false) (some true)
      (fun b => if b then some (1 : ℚ) else none)).1 = some 1
    ∧ (segmented_solve (some true) (some false) (some true)
      (fun b => if b then some (1 : ℚ) else none)).2.2 = some 1 :=
  ⟨rfl, rfl, rfl⟩

end MutantStopBot
